import Mathlib

/-
Verification of the response-rendering and interactive-data pipeline of the
Database-Adaptive-Analytics frontend (src/frontend/components/SchemaPanel.tsx,
src/frontend/components/DataVisualizer.tsx, SqlRenderer).

The TypeScript source is shallowly embedded: strings are Lean Strings viewed
as lists of Chars, JS numbers are exact rationals (IEEE-754 rounding and
overflow to Infinity are outside the model and noted where relevant), and the
asynchronous query-execution flow is an explicit event trace on a state type.
-/

set_option maxRecDepth 4000

attribute [local semireducible] Rat.add Rat.mul Rat.inv Rat.sub Rat.ofScientific

namespace Analytics

/-- Whitespace recognised by the embedded JS trim: space, tab, newline,
carriage return, vertical tab, form feed.  (JS also trims some exotic Unicode
space characters, which never occur in the material below.) -/
def isWsChar (c : Char) : Bool :=
  c = ' ' || c = '\t' || c = '\n' || c = '\r' || c = '\x0b' || c = '\x0c'

/-- JS String.prototype.trim: drop whitespace from both ends (char-list level). -/
def trimChars (l : List Char) : List Char :=
  ((l.dropWhile isWsChar).reverse.dropWhile isWsChar).reverse

/-- JS String.prototype.trim on Strings. -/
def trimStr (s : String) : String :=
  String.mk (trimChars s.data)

/-- JS String.prototype.toUpperCase (ASCII range, as used by the source). -/
def upperStr (s : String) : String :=
  String.mk (s.data.map Char.toUpper)

/-- JS String.prototype.toLowerCase (ASCII range, as used by the source). -/
def lowerStr (s : String) : String :=
  String.mk (s.data.map Char.toLower)

/-- JS String.prototype.startsWith. -/
def startsWithStr (s p : String) : Bool :=
  p.data.isPrefixOf s.data

/-- Specification-level case-insensitive prefix test: the first `p.length`
characters of `s`, upper-cased, equal `p` upper-cased. -/
def ciStartsWith (s p : String) : Bool :=
  (s.data.take p.data.length).map Char.toUpper = p.data.map Char.toUpper

/-- Split `l` at the first occurrence of `pat`, returning the part before the
occurrence and the part after it.  `none` when `pat` does not occur.  This is
the primitive behind the embedded regex searches of the source. -/
def splitFirst (pat : List Char) : List Char → Option (List Char × List Char)
  | [] => if pat.isPrefixOf ([] : List Char) then some ([], []) else none
  | c :: cs =>
    if pat.isPrefixOf (c :: cs) then some ([], (c :: cs).drop pat.length)
    else (splitFirst pat cs).map (fun p => (c :: p.1, p.2))

/-- JS String.prototype.includes, via `splitFirst`. -/
def containsSub (s pat : String) : Bool :=
  (splitFirst pat.data s.data).isSome

/-! ## CodeBlockClassifier (SchemaPanel.tsx, ChatMessage code-block renderer)

The renderer extracts the language tag with `/language-(\w+)/` (so `none`
models an absent or empty tag) and tests, in source order,
`match[1].toLowerCase()` against "mermaid", then "sql" / "mongodb"; any other
matched tag falls to the highlighted generic box, and no tag at all falls to
the inline (plain) code path. -/

inductive BlockKind
  | sql
  | diagram
  | generic
  | plain
deriving DecidableEq

def classifyBlock (languageTag : Option String) : BlockKind :=
  match languageTag with
  | none => .plain
  | some t =>
    if lowerStr t = "mermaid" then .diagram
    else if lowerStr t = "sql" || lowerStr t = "mongodb" then .sql
    else .generic

/-! ## SqlSafetyGate (SchemaPanel.tsx auto-run effect, lines 669-677)

`const sql = sqlMatch[1].trim();
 if (sql.toUpperCase().startsWith('SELECT') || sql.toUpperCase().startsWith('WITH'))` -/

/-- Auto-execution eligibility of a SQL string. -/
def eligible (s : String) : Bool :=
  let t := trimStr s
  startsWithStr (upperStr t) "SELECT" || startsWithStr (upperStr t) "WITH"

/-! ## ComplexityScorer (SqlRenderer, complexity useMemo) -/

inductive QueryTier
  | simple
  | intermediate
  | complex
deriving DecidableEq

/-- Weighted keyword score of a SQL string: case-insensitive substring tests
against the fixed vocabulary of the source. -/
def complexityScore (code : String) : Nat :=
  let upper := upperStr code
  (if containsSub upper "JOIN" then 2 else 0) +
  (if containsSub upper "GROUP BY" then 1 else 0) +
  (if containsSub upper "HAVING" then 2 else 0) +
  (if containsSub upper "WITH" then 2 else 0) +
  (if containsSub upper "UNION" then 2 else 0) +
  (if containsSub upper "SELECT" && containsSub upper "WHERE" then 1 else 0)

/-- Thresholded tier: score < 3 simple, < 6 intermediate, otherwise complex. -/
def complexityTier (code : String) : QueryTier :=
  if complexityScore code < 3 then .simple
  else if complexityScore code < 6 then .intermediate
  else .complex

/-! ## Embedded JS number parsing

The extractor and the visualizer use `parseFloat` and `isFinite`/`Number`
coercion.  Both are modelled over exact rationals: every successfully parsed
string yields a finite rational.  (True IEEE-754 overflow of astronomically
long digit strings to Infinity, and the "Infinity" literal accepted by
`parseFloat`, are outside the model; both only make the JS tests *fail*, and
the literal "Infinity" also fails in the model since it contains no digit.) -/

def digitVal (c : Char) : Nat := c.toNat - 48

def natOfDigits (l : List Char) : Nat :=
  l.foldl (fun n c => 10 * n + digitVal c) 0

/-- Exact power of ten as a rational. -/
def pow10 (n : Nat) : ℚ := ((10 ^ n : ℕ) : ℚ)

/-- Exponent part consumed by `parseFloat` after an `e`/`E`: optional sign and
digits; if no digit follows, `parseFloat` simply stops (exponent 0). -/
def jsParseExp (r : List Char) : Int :=
  let sgnSplit : Int × List Char :=
    match r with
    | '-' :: t => (-1, t)
    | '+' :: t => (1, t)
    | t => (1, t)
  let ds := sgnSplit.2.takeWhile Char.isDigit
  if ds.isEmpty then 0 else sgnSplit.1 * (natOfDigits ds : Int)

/-- Scale a rational by ten to an integer power. -/
def scaleExp (q : ℚ) (ex : Int) : ℚ :=
  match ex with
  | .ofNat n => q * pow10 n
  | .negSucc n => q / pow10 (n + 1)

/-- JS parseFloat: skip leading whitespace, optional sign, longest valid
numeric prefix (integer digits, optional fraction, optional exponent);
`none` models NaN (no digit found). -/
def jsParseFloat (l : List Char) : Option ℚ :=
  let l1 := l.dropWhile isWsChar
  let sgnSplit : ℚ × List Char :=
    match l1 with
    | '-' :: r => (-1, r)
    | '+' :: r => (1, r)
    | r => (1, r)
  let l2 := sgnSplit.2
  let ip := l2.takeWhile Char.isDigit
  let l3 := l2.dropWhile Char.isDigit
  let fp :=
    match l3 with
    | '.' :: r => r.takeWhile Char.isDigit
    | _ => []
  let l4 :=
    match l3 with
    | '.' :: r => r.dropWhile Char.isDigit
    | _ => l3
  if ip.isEmpty && fp.isEmpty then none
  else
    let mant : ℚ := (natOfDigits ip : ℚ) + (natOfDigits fp : ℚ) / pow10 fp.length
    let ex : Int :=
      match l4 with
      | 'e' :: r => jsParseExp r
      | 'E' :: r => jsParseExp r
      | _ => 0
    some (scaleExp (sgnSplit.1 * mant) ex)

/-- Exponent of a full-string decimal literal: optional sign, then at least
one digit, nothing else. -/
def jsFullExp (r : List Char) : Option Int :=
  let sgnSplit : Int × List Char :=
    match r with
    | '-' :: t => (-1, t)
    | '+' :: t => (1, t)
    | t => (1, t)
  if sgnSplit.2.isEmpty || !sgnSplit.2.all Char.isDigit then none
  else some (sgnSplit.1 * (natOfDigits sgnSplit.2 : Int))

/-- Full-string decimal literal accepted by JS `Number(...)` (StrNumericLiteral
without the radix forms): optional sign, digits with optional fraction or a
leading-dot fraction, optional exponent that must carry digits.  `none` models
NaN. -/
def jsDecimalFull (t : List Char) : Option ℚ :=
  let sgnSplit : ℚ × List Char :=
    match t with
    | '-' :: r => (-1, r)
    | '+' :: r => (1, r)
    | r => (1, r)
  let t1 := sgnSplit.2
  let ip := t1.takeWhile Char.isDigit
  let t2 := t1.dropWhile Char.isDigit
  let fp :=
    match t2 with
    | '.' :: r => r.takeWhile Char.isDigit
    | _ => []
  let t3 :=
    match t2 with
    | '.' :: r => r.dropWhile Char.isDigit
    | _ => t2
  if ip.isEmpty && fp.isEmpty then none
  else
    let mant : ℚ := (natOfDigits ip : ℚ) + (natOfDigits fp : ℚ) / pow10 fp.length
    let expPart : Option Int :=
      match t3 with
      | [] => some 0
      | 'e' :: r => jsFullExp r
      | 'E' :: r => jsFullExp r
      | _ => none
    expPart.map (fun ex => scaleExp (sgnSplit.1 * mant) ex)

def hexDigitVal (c : Char) : Option Nat :=
  let n := c.toNat
  if 48 ≤ n && n ≤ 57 then some (n - 48)
  else if 97 ≤ n && n ≤ 102 then some (n - 87)
  else if 65 ≤ n && n ≤ 70 then some (n - 55)
  else none

/-- Digits of a radix literal (binary, octal, hex) for `Number(...)`. -/
def parseRadix (base : Nat) (l : List Char) : Option Nat :=
  if l.isEmpty then none
  else
    l.foldl
      (fun acc c =>
        acc.bind (fun n =>
          (hexDigitVal c).bind (fun d =>
            if d < base then some (base * n + d) else none)))
      (some 0)

/-- JS `Number(string)` coercion restricted to finite results, as used by
`isFinite(val)`: trimmed empty string is 0, radix literals, else a full-string
decimal literal.  `none` models NaN (and the unreachable infinite results). -/
def jsNumberCoerce (l : List Char) : Option ℚ :=
  let t := trimChars l
  match t with
  | [] => some 0
  | '0' :: 'x' :: r => (parseRadix 16 r).map (fun n => (n : ℚ))
  | '0' :: 'X' :: r => (parseRadix 16 r).map (fun n => (n : ℚ))
  | '0' :: 'b' :: r => (parseRadix 2 r).map (fun n => (n : ℚ))
  | '0' :: 'B' :: r => (parseRadix 2 r).map (fun n => (n : ℚ))
  | '0' :: 'o' :: r => (parseRadix 8 r).map (fun n => (n : ℚ))
  | '0' :: 'O' :: r => (parseRadix 8 r).map (fun n => (n : ℚ))
  | _ => jsDecimalFull t

/-! ## TableAstExtractor (SchemaPanel.tsx, extractTableData) -/

/-- A table cell value after extraction: promoted number or raw string. -/
inductive CellValue
  | str (s : String)
  | num (q : ℚ)
deriving DecidableEq

/-- A row record, in JS property-insertion order. -/
abbrev Row := List (String × CellValue)

/-- `textValue.replace(/,/g, "")`. -/
def stripCommas (l : List Char) : List Char :=
  l.filter (fun c => c ≠ ',')

/-- Full match of `^-?[\d,]+(\.\d+)?$` without the optional leading minus. -/
def numBodyMatch (l : List Char) : Bool :=
  let isDigitOrComma : Char → Bool := fun c => c.isDigit || c = ','
  let ds := l.takeWhile isDigitOrComma
  let rest := l.dropWhile isDigitOrComma
  if ds.isEmpty then false
  else
    match rest with
    | [] => true
    | '.' :: r => !r.isEmpty && r.all Char.isDigit
    | _ => false

/-- Full match of the numeric-coercion pattern `^-?[\d,]+(\.\d+)?$`. -/
def numRegexMatch (l : List Char) : Bool :=
  match l with
  | '-' :: r => numBodyMatch r
  | _ => numBodyMatch l

/-- Per-cell numeric coercion of the extractor: parse the comma-stripped text;
promote only when the parse is finite and the raw text full-matches the
pattern (`value = num`), otherwise keep the string. -/
def coerceCell (textValue : String) : CellValue :=
  let cleanNum := stripCommas textValue.data
  match jsParseFloat cleanNum with
  | some q => if numRegexMatch textValue.data then .num q else .str textValue
  | none => .str textValue

/-- HAST node: element with tag and ordered children, or literal text. -/
inductive Hast
  | text (value : String)
  | elem (tagName : String) (children : List Hast)

mutual

/-- Recursive text flattening (`getText`): depth-first, left-to-right. -/
def hastTextChars : Hast → List Char
  | .text v => v.data
  | .elem _ cs => hastTextListChars cs

def hastTextListChars : List Hast → List Char
  | [] => []
  | h :: t => hastTextChars h ++ hastTextListChars t

end

/-- `c.tagName === tag` (text nodes have no tagName). -/
def isTagged (tag : String) (h : Hast) : Bool :=
  match h with
  | .elem t _ => t = tag
  | .text _ => false

def childrenOf : Hast → List Hast
  | .text _ => []
  | .elem _ cs => cs

structure TableData where
  headers : List String
  data : List Row
deriving DecidableEq

/-- JS object property assignment `rowData[header] = value`: update an
existing key in place, else append. -/
def setKey : Row → String → CellValue → Row
  | [], k, v => [(k, v)]
  | (k', v') :: rest, k, v =>
    if k' = k then (k, v) :: rest else (k', v') :: setKey rest k v

/-- One body row to a record: the `td` children in order; a cell at position
`i` is stored under `headers[i]` when `i < headers.length`, with flattened,
trimmed text run through the numeric coercion. -/
def rowToRecord (headers : List String) (row : Hast) : Row :=
  let cells := (childrenOf row).filter (isTagged "td")
  cells.enum.foldl
    (fun acc p =>
      if p.1 < headers.length then
        setKey acc (headers.getD p.1 "") (coerceCell (trimStr (String.mk (hastTextChars p.2))))
      else acc)
    []

/-- Header extraction: the `thead` child, its first `tr`, the flattened,
trimmed text of its `th` children.  `none` when `thead` or its row is absent
(the two early `return null`s of the source). -/
def tableHeaders (node : Hast) : Option (List String) :=
  match (childrenOf node).find? (isTagged "thead") with
  | none => none
  | some thead =>
    match (childrenOf thead).find? (isTagged "tr") with
    | none => none
    | some headerRow =>
      some (((childrenOf headerRow).filter (isTagged "th")).map
        (fun th => trimStr (String.mk (hastTextChars th))))

/-- The body rows: `tr` children of `tbody`; an absent `tbody` gives zero
rows. -/
def tableDataRows (node : Hast) : List Hast :=
  match (childrenOf node).find? (isTagged "tbody") with
  | some tbody => (childrenOf tbody).filter (isTagged "tr")
  | none => []

/-- extractTableData: `none` without a header group, with zero headers, or
with zero data rows; otherwise the typed dataset.  The source wraps the body
in try/catch so that no exception escapes; the embedding is total by
construction, which expresses the same interface. -/
def extractTableData (node : Hast) : Option TableData :=
  match tableHeaders node with
  | none => none
  | some headers =>
    if headers.isEmpty then none
    else if ((tableDataRows node).map (rowToRecord headers)).isEmpty then none
    else some ⟨headers, (tableDataRows node).map (rowToRecord headers)⟩

/-! ## TypeInferencer / VisualizationSelector (DataVisualizer.tsx) -/

/-- JS `row[h]`: `none` models `undefined` (missing key or missing row). -/
def getVal (row : Row) (h : String) : Option CellValue :=
  (row.find? (fun p => p.1 = h)).map (fun p => p.2)

/-- The per-column test of `numericKeys`:
`!isNaN(parseFloat(val)) && isFinite(val)`.  An `undefined` value fails
(`parseFloat(undefined)` is NaN); a number passes (exact rationals are always
finite); a string must have a parseFloat prefix and coerce to a finite number
under `Number(...)`. -/
def jsNumericTest (v : Option CellValue) : Bool :=
  match v with
  | none => false
  | some (.num _) => true
  | some (.str s) => (jsParseFloat s.data).isSome && (jsNumberCoerce s.data).isSome

/-- `headers.filter(h => ...)` over `data[0]?.[h]`: the numeric columns,
decided from the first data row alone. -/
def numericKeys (headers : List String) (data : List Row) : List String :=
  headers.filter (fun h => jsNumericTest (data.head?.bind (fun r => getVal r h)))

/-! ## CSV export (DataVisualizer.tsx, handleDownload) -/

/-- `Array.prototype.join(sep)` at the character level. -/
def joinSep (sep : Char) : List (List Char) → List Char
  | [] => []
  | [x] => x
  | x :: y :: rest => x ++ sep :: joinSep sep (y :: rest)

/-- `String.prototype.split(sep)` at the character level (the re-splitting
operation of the round-trip property). -/
def splitSep (sep : Char) : List Char → List (List Char)
  | [] => [[]]
  | c :: cs =>
    if c = sep then [] :: splitSep sep cs
    else
      match splitSep sep cs with
      | [] => [[c]]
      | r :: rs => (c :: r) :: rs

/-- Smallest k with den ∣ 10^k, for rendering terminating decimals.  Every JS
double is dyadic, so its denominator divides 10^1074; the bound 1100 covers
that range. -/
def pow10Exp (den : Nat) : Option Nat :=
  (List.range 1101).find? (fun k => 10 ^ k % den = 0)

/-- Decimal rendering of an exact rational, matching JS number-to-string on
the terminating decimals produced by this pipeline (integers without a point,
fractions with no trailing zeros).  Non-terminating rationals cannot arise
from the embedded parsers; they render as a fraction. -/
def ratToString (q : ℚ) : String :=
  let sgn := if q < 0 then "-" else ""
  let a := q.num.natAbs
  let b := q.den
  if b = 1 then sgn ++ Nat.repr a
  else
    match pow10Exp b with
    | some k =>
      let scaled := a * 10 ^ k / b
      let ds := (Nat.repr scaled).data
      let m := ds.length
      if k < m then
        sgn ++ String.mk (ds.take (m - k)) ++ "." ++ String.mk (ds.drop (m - k))
      else sgn ++ "0." ++ String.mk (List.replicate (k - m) '0') ++ String.mk ds
    | none => sgn ++ Nat.repr a ++ "/" ++ Nat.repr b

/-- The template literal `${row[h]}`. -/
def jsDisplay (v : Option CellValue) : String :=
  match v with
  | none => "undefined"
  | some (.str s) => s
  | some (.num q) => ratToString q

/-- One quoted CSV field: `"${row[h]}"` (no escaping in the source). -/
def csvCell (row : Row) (h : String) : List Char :=
  '"' :: (jsDisplay (getVal row h)).data ++ ['"']

/-- handleDownload serialization: header row joined by commas, then one line
per data row of individually quoted fields, lines joined by newlines. -/
def csvContent (headers : List String) (data : List Row) : String :=
  String.mk (joinSep '\n'
    (joinSep ',' (headers.map (fun h => h.data)) ::
      data.map (fun row => joinSep ',' (headers.map (csvCell row)))))

/-! ## Data model (types.ts) and QueryExecutionCoordinator
(SchemaPanel.tsx, ChatMessage) -/

inductive Role
  | user
  | assistant
deriving DecidableEq

/-- Message of the transcript; the timestamp is an abstract tick. -/
structure Message where
  id : String
  role : Role
  content : String
  timestamp : Nat

/-- DbConnection of types.ts (`type` rendered as its string literal). -/
structure DbConnection where
  host : String
  port : Int
  username : String
  password : String
  database : String
  dbType : String
  connection_string : Option String
deriving DecidableEq

structure DbContext where
  connection : DbConnection
  schema : String
  selectedModel : String
  apiKey : Option String
deriving DecidableEq

/-- Response shape of the query execution interface
(`{success, columns?, rows?, error?}`). -/
structure ApiExecuteResponse where
  success : Bool
  columns : Option (List String)
  rows : Option (List Row)
  error : Option String

/-- The execution-result state stored by `handleRunQuery`. -/
structure ExecutionResult where
  headers : List String
  data : List Row
  error : Option String
deriving DecidableEq

/-- Shaping of a resolved backend response:
`result.success && result.columns && result.rows` keeps columns/rows,
anything else stores `result.error || "Unknown error occurred"`. -/
def mkExecutionResult (result : ApiExecuteResponse) : ExecutionResult :=
  if result.success then
    match result.columns, result.rows with
    | some cols, some rws => ⟨cols, rws, none⟩
    | _, _ => ⟨[], [], some (result.error.getD "Unknown error occurred")⟩
  else ⟨[], [], some (result.error.getD "Unknown error occurred")⟩

/-- A resolved call: a backend response, or a thrown transport error whose
`String(err)` is stored (the catch branch). -/
def resolveResult (r : Except String ApiExecuteResponse) : ExecutionResult :=
  match r with
  | .ok result => mkExecutionResult result
  | .error err => ⟨[], [], some err⟩

/-- Component state touched by `handleRunQuery`. -/
structure QueryState where
  isExecuting : Bool
  executionResult : Option ExecutionResult
deriving DecidableEq

/-- The synchronous prefix of `handleRunQuery(sql)`: the missing-context guard
(`if (!dbContext) return;`), then `setIsExecuting(true)`,
`setExecutionResult(null)` and the issued backend call
`executeQuery(dbContext.connection, sql)`. -/
def handleRunQueryStart (dbContext : Option DbContext) (sql : String) (st : QueryState) :
    QueryState × List (DbConnection × String) :=
  match dbContext with
  | none => (st, [])
  | some ctx => (⟨true, none⟩, [(ctx.connection, sql)])

/-- The continuation of `handleRunQuery` once its call resolves:
`setExecutionResult(...)`, then `setIsExecuting(false)` in the finally block.
The source applies it unconditionally, with no check that the resolving call
is still the latest. -/
def handleRunQueryResolve (response : Except String ApiExecuteResponse) (st : QueryState) :
    QueryState :=
  let _ := st
  ⟨false, some (resolveResult response)⟩

/-- One event of the single-threaded event loop: a `handleRunQuery` invocation
reaching its synchronous prefix, or the continuation of a previously issued
call resolving with its response. -/
inductive RunEvent
  | start (sql : String)
  | resolve (response : Except String ApiExecuteResponse)

def stepRun (dbContext : Option DbContext) (st : QueryState) : RunEvent → QueryState
  | .start sql => (handleRunQueryStart dbContext sql st).1
  | .resolve r => handleRunQueryResolve r st

/-- Interleaved execution of manual runs as scheduled by the event loop. -/
def runTrace (dbContext : Option DbContext) (events : List RunEvent) (st : QueryState) :
    QueryState :=
  events.foldl (stepRun dbContext) st

/-! ## Auto-run effect (SchemaPanel.tsx lines 664-678)

`message.content.match(/```sql\n([\s\S]*?)\n```/)`: the match starts at the
first occurrence of the literal (lower-case) opening, and the lazy capture
ends at the first later occurrence of the closing.  If the first opening has
no closing after it, no later opening has one either, so the regex fails:
`firstSqlBlock` is exact. -/

def sqlFenceOpen : List Char := "```sql\n".data

def sqlFenceClose : List Char := "\n```".data

/-- The capture group of the first regex match, if any. -/
def firstSqlBlock (content : String) : Option (List Char) :=
  match splitFirst sqlFenceOpen content.data with
  | none => none
  | some op =>
    match splitFirst sqlFenceClose op.2 with
    | none => none
    | some cl => some cl.1

/-- The one-shot ref `hasAutoRun`, bound to the message instance. -/
structure AutoRunState where
  hasAutoRun : Bool
deriving DecidableEq

/-- One execution of the auto-run effect body: guards
(`!dbContext || hasAutoRun.current || message.role !== 'assistant'`), the
regex match, the trim, the SELECT/WITH prefix gate, then
`hasAutoRun.current = true; handleRunQuery(sql)`.  Returns the updated ref and
the SQL text handed to `handleRunQuery`, if any. -/
def autoRunEffect (dbContext : Option DbContext) (message : Message) (st : AutoRunState) :
    AutoRunState × Option String :=
  if dbContext.isNone then (st, none)
  else if st.hasAutoRun then (st, none)
  else if message.role ≠ Role.assistant then (st, none)
  else
    match firstSqlBlock message.content with
    | none => (st, none)
    | some cap =>
      if startsWithStr (upperStr (trimStr (String.mk cap))) "SELECT" ||
          startsWithStr (upperStr (trimStr (String.mk cap))) "WITH" then
        (⟨true⟩, some (trimStr (String.mk cap)))
      else (st, none)

/-- `n` successive renders of the same message instance, collecting every SQL
text the effect hands to `handleRunQuery`. -/
def renderTimes (dbContext : Option DbContext) (message : Message) :
    Nat → AutoRunState → AutoRunState × List String
  | 0, st => (st, [])
  | n + 1, st =>
    let r := autoRunEffect dbContext message st
    let rest := renderTimes dbContext message n r.1
    (rest.1, r.2.toList ++ rest.2)

/-! ## Fenced blocks of a markdown document (data model of the spec) -/

/-- CodeBlock of the data model: optional language tag and raw text. -/
structure CodeBlock where
  languageTag : Option String
  rawText : String

/-- The markdown fence a block came from. -/
def renderFence (b : CodeBlock) : String :=
  "```" ++ b.languageTag.getD "" ++ "\n" ++ b.rawText ++ "\n```"

/-- A document whose content is a sequence of fenced blocks. -/
def renderDocument (bs : List CodeBlock) : String :=
  String.mk (joinSep '\n' (bs.map (fun b => (renderFence b).data)))

/-! ## Concrete instances used by the theorems below -/

/-- The table node of the worked example: header row name/amount, one data
row Widget / "1,234.50". -/
def exTableNode : Hast :=
  .elem "table"
    [.elem "thead" [.elem "tr" [.elem "th" [.text "name"], .elem "th" [.text "amount"]]],
     .elem "tbody" [.elem "tr" [.elem "td" [.text "Widget"], .elem "td" [.text "1,234.50"]]]]

/-- Expected extraction of `exTableNode`. -/
def exTableData : TableData :=
  ⟨["name", "amount"], [[("name", CellValue.str "Widget"), ("amount", CellValue.num ((2469 : ℚ) / 2))]]⟩

/-- A connection context (presence is what matters to the guards). -/
def demoCtx : DbContext :=
  ⟨⟨"localhost", 5432, "user", "pw", "db", "PostgreSQL", none⟩, "", "Gemini (Google)", none⟩

/-- Two sql-classified, auto-run-eligible fenced blocks; the first is tagged
`mongodb`, the second `sql`. -/
def mongoFirstBlocks : List CodeBlock :=
  [⟨some "mongodb", "SELECT 1"⟩, ⟨some "sql", "SELECT 2"⟩]

/-- An assistant message rendering `mongoFirstBlocks`. -/
def mongoFirstMessage : Message :=
  ⟨"m1", .assistant, renderDocument mongoFirstBlocks, 0⟩

/-- An assistant message with a single lower-case sql fence. -/
def autoRunDemoMessage : Message :=
  ⟨"m2", .assistant, "```sql\nselect 3\n```", 0⟩

/-- Backend response of the first manual run. -/
def run1Response : ApiExecuteResponse := ⟨true, some ["run1"], some [], none⟩

/-- Backend response of the second manual run. -/
def run2Response : ApiExecuteResponse := ⟨true, some ["run2"], some [], none⟩

/-- Run 1 starts; run 2 is issued while run 1 is in flight; run 2's response
arrives first; run 1's response resolves last. -/
def raceTrace : List RunEvent :=
  [.start "SELECT 1", .start "SELECT 1", .resolve (.ok run2Response), .resolve (.ok run1Response)]

/-- CSV counterexample dataset: a single cell whose value contains a newline. -/
def ceCsvHeaders : List String := ["a"]

def ceCsvData : List Row := [[("a", CellValue.str "x\ny")]]

/-! ## Helper lemmas -/

theorem mk_data (l : List Char) : (String.mk l).data = l := rfl

/-- For a pattern that is fixed by upper-casing, the source's
`toUpperCase().startsWith(p)` coincides with the specification's
case-insensitive prefix test. -/
theorem upper_startsWith_eq_ci (t p : String) (hp : p.data.map Char.toUpper = p.data) :
    startsWithStr (upperStr t) p = ciStartsWith t p := by
  rw [Bool.eq_iff_iff]
  simp only [startsWithStr, upperStr, ciStartsWith, mk_data, decide_eq_true_eq,
    List.isPrefixOf_iff_prefix]
  rw [List.prefix_iff_eq_take, ← List.map_take, hp, eq_comm]

/-! ## C10 -/

/-- C10: a manual run with no connection context is a complete no-op: the
guard `if (!dbContext) return;` fires before `setIsExecuting(true)` and
`setExecutionResult(null)`, so the state (including any previously displayed
ExecutionResult) is unchanged and no backend call is issued. -/
theorem c10_no_context_noop (sql : String) (st : QueryState) :
    handleRunQueryStart none sql st = (st, []) := rfl

/-- C10 witness: concrete instantiation of the no-op equation. -/
theorem c10_witness :
    handleRunQueryStart none "SELECT 1" ⟨false, some ⟨["x"], [], none⟩⟩ =
      (⟨false, some ⟨["x"], [], none⟩⟩, []) :=
  c10_no_context_noop "SELECT 1" ⟨false, some ⟨["x"], [], none⟩⟩

/-! ## C2 -/

/-- C2 (code bug): `handleRunQuery` applies a resolving response
unconditionally — there is no check that the resolving call is still the
latest.  In the trace where a manual re-run is issued while run 1 is in
flight and run 1's response resolves after run 2's, the displayed
ExecutionResult is run 1's (the stale, earlier run), not run 2's, violating
the race-safety requirement the spec states as mandatory. -/
theorem c2_stale_response_displayed :
    runTrace (some demoCtx) raceTrace ⟨false, none⟩ =
      ⟨false, some (mkExecutionResult run1Response)⟩ ∧
    mkExecutionResult run1Response = ⟨["run1"], [], none⟩ ∧
    mkExecutionResult run2Response = ⟨["run2"], [], none⟩ ∧
    mkExecutionResult run1Response ≠ mkExecutionResult run2Response := by
  refine ⟨rfl, rfl, rfl, ?_⟩
  decide

/-! ## C7 -/

/-- C7: a column is numeric iff the first data row's value for that header
passes the finite-numeric test `!isNaN(parseFloat(val)) && isFinite(val)`;
all later rows are ignored (the two filtered lists agree whenever the first
row agrees), and a column whose first value is "2023-01" stays text even when
every later value is numeric. -/
theorem c7_first_row_typing :
    (∀ (headers : List String) (r : Row) (rest rest' : List Row),
        numericKeys headers (r :: rest) = numericKeys headers (r :: rest')) ∧
    (∀ (headers : List String) (data : List Row) (h : String),
        h ∈ numericKeys headers data ↔
          h ∈ headers ∧ jsNumericTest (data.head?.bind (fun row => getVal row h)) = true) ∧
    numericKeys ["month", "sales"]
        [[("month", CellValue.str "2023-01"), ("sales", CellValue.num 5)],
         [("month", CellValue.str "7"), ("sales", CellValue.num 6)]] = ["sales"] := by
  refine ⟨fun headers r rest rest' => rfl, fun headers data h => ?_, by decide⟩
  simp [numericKeys, List.mem_filter]

/-! ## C8 -/

/-- C8: the complexity tier is the thresholded keyword score — score < 3
Simple, 3 ≤ score < 6 Intermediate, 6 ≤ score Complex — and on the three
example queries the score is 0 (Simple), 5 (Intermediate) and 7 (Complex). -/
theorem c8_complexity_tiers :
    (∀ s : String,
        (complexityTier s = .simple ↔ complexityScore s < 3) ∧
        (complexityTier s = .intermediate ↔ 3 ≤ complexityScore s ∧ complexityScore s < 6) ∧
        (complexityTier s = .complex ↔ 6 ≤ complexityScore s)) ∧
    complexityScore "SELECT * FROM t" = 0 ∧
    complexityTier "SELECT * FROM t" = .simple ∧
    complexityScore "SELECT a FROM t JOIN u ON t.id = u.id GROUP BY a HAVING count(*) > 1" = 5 ∧
    complexityTier "SELECT a FROM t JOIN u ON t.id = u.id GROUP BY a HAVING count(*) > 1" =
      .intermediate ∧
    complexityScore
      "WITH c AS (SELECT a FROM t JOIN u ON t.id = u.id GROUP BY a HAVING count(*) > 1) SELECT * FROM c" = 7 ∧
    complexityTier
      "WITH c AS (SELECT a FROM t JOIN u ON t.id = u.id GROUP BY a HAVING count(*) > 1) SELECT * FROM c" =
      .complex := by
  refine ⟨fun s => ?_, by decide, by decide, by decide, by decide, by decide, by decide⟩
  unfold complexityTier
  split_ifs with h1 h2 <;> refine ⟨?_, ?_, ?_⟩ <;> simp <;> omega

/-! ## C3 -/

/-- C3: block classification is a pure, case-insensitive function of the
language tag: sql iff the lower-cased tag is "sql" or "mongodb", diagram iff
it is "mermaid", generic for any other non-empty tag, plain iff no tag is
present; tags with the same lower-casing classify identically. -/
theorem c3_block_classification (tag : Option String) :
    (classifyBlock tag = .sql ↔
      ∃ t, tag = some t ∧ (lowerStr t = "sql" ∨ lowerStr t = "mongodb")) ∧
    (classifyBlock tag = .diagram ↔ ∃ t, tag = some t ∧ lowerStr t = "mermaid") ∧
    (∀ t, tag = some t → t ≠ "" → lowerStr t ≠ "sql" → lowerStr t ≠ "mongodb" →
      lowerStr t ≠ "mermaid" → classifyBlock tag = .generic) ∧
    (classifyBlock tag = .plain ↔ tag = none) ∧
    (∀ t1 t2, tag = some t1 → lowerStr t1 = lowerStr t2 →
      classifyBlock tag = classifyBlock (some t2)) := by
  cases tag with
  | none =>
    refine ⟨by simp [classifyBlock], by simp [classifyBlock], by simp,
      by simp [classifyBlock], by simp⟩
  | some t =>
    by_cases h1 : lowerStr t = "mermaid" <;>
      by_cases h2 : lowerStr t = "sql" <;>
        by_cases h3 : lowerStr t = "mongodb" <;>
          simp_all [classifyBlock]

/-- C3 witness: concrete classifications through the theorem. -/
theorem c3_witness :
    classifyBlock (some "Bash") = .generic ∧
    classifyBlock (some "MongoDB") = .sql ∧
    classifyBlock (some "SQL") = classifyBlock (some "sql") :=
  ⟨(c3_block_classification (some "Bash")).2.2.1 "Bash" rfl (by decide) (by decide)
      (by decide) (by decide),
   (c3_block_classification (some "MongoDB")).1.mpr ⟨"MongoDB", rfl, Or.inr (by decide)⟩,
   (c3_block_classification (some "SQL")).2.2.2.2 "SQL" "sql" rfl (by decide)⟩

/-! ## C4 -/

/-- C4: auto-execution eligibility holds iff the trimmed SQL text
case-insensitively starts with SELECT or WITH; "  select 1" is eligible and
"DROP TABLE x" is not. -/
theorem c4_sql_safety_gate :
    (∀ s : String,
        eligible s =
          (ciStartsWith (trimStr s) "SELECT" || ciStartsWith (trimStr s) "WITH")) ∧
    eligible "  select 1" = true ∧
    eligible "DROP TABLE x" = false := by
  refine ⟨fun s => ?_, by decide, by decide⟩
  show (startsWithStr (upperStr (trimStr s)) "SELECT" ||
      startsWithStr (upperStr (trimStr s)) "WITH") = _
  rw [upper_startsWith_eq_ci (trimStr s) "SELECT" (by decide),
    upper_startsWith_eq_ci (trimStr s) "WITH" (by decide)]

/-! ## C5 -/

/-- C5: a cell is promoted to a number iff its text full-matches
`^-?[\d,]+(\.\d+)?$` and its comma-stripped text parses to a finite number;
the Widget / "1,234.50" table extracts to a dataset whose amount is the
number 1234.5 while name stays a string, and date-like or mixed strings stay
strings. -/
theorem c5_numeric_coercion :
    (∀ v : String,
        (∃ q, coerceCell v = CellValue.num q) ↔
          (numRegexMatch v.data = true ∧ (jsParseFloat (stripCommas v.data)).isSome = true)) ∧
    extractTableData exTableNode = some exTableData ∧
    exTableData =
      ⟨["name", "amount"],
        [[("name", CellValue.str "Widget"), ("amount", CellValue.num ((2469 : ℚ) / 2))]]⟩ ∧
    coerceCell "2023-01" = CellValue.str "2023-01" ∧
    coerceCell "123abc" = CellValue.str "123abc" := by
  refine ⟨fun v => ?_, by decide, rfl, by decide, by decide⟩
  unfold coerceCell
  cases h : jsParseFloat (stripCommas v.data) with
  | none => simp [h]
  | some q => by_cases hr : numRegexMatch v.data <;> simp [h, hr]

/-! ## C6 -/

/-- C6: extraction degrades to "no dataset" instead of failing: a text node
yields none, an absent header group (or header row) yields none, zero headers
yield none, zero data rows yield none; every produced dataset has nonempty
headers and rows.  Totality of the embedding expresses that no exception
escapes the extractor for any node shape. -/
theorem c6_extractor_degrades :
    (∀ s, extractTableData (Hast.text s) = none) ∧
    (∀ node, tableHeaders node = none → extractTableData node = none) ∧
    (∀ node, tableHeaders node = some [] → extractTableData node = none) ∧
    (∀ node, tableDataRows node = [] → extractTableData node = none) ∧
    (∀ node ds, extractTableData node = some ds → ds.headers ≠ [] ∧ ds.data ≠ []) := by
  refine ⟨fun s => rfl, fun node h => ?_, fun node h => ?_, fun node h => ?_,
    fun node ds h => ?_⟩
  · simp [extractTableData, h]
  · simp [extractTableData, h]
  · unfold extractTableData
    split
    · rfl
    · simp [h]
  · unfold extractTableData at h
    split at h
    · exact absurd h (by simp)
    · rename_i headers heq
      split at h
      · exact absurd h (by simp)
      · split at h
        · exact absurd h (by simp)
        · rename_i hne hdne
          have hds := Option.some.inj h
          subst hds
          exact ⟨by simpa using hne, by simpa using hdne⟩

/-- C6 witness: a table without a header group yields none, and the worked
example's dataset is nonempty in headers and rows. -/
theorem c6_witness :
    (tableHeaders (Hast.elem "table" [Hast.elem "tbody" []]) = none ∧
      extractTableData (Hast.elem "table" [Hast.elem "tbody" []]) = none) ∧
    (extractTableData exTableNode = some exTableData ∧
      exTableData.headers ≠ [] ∧ exTableData.data ≠ []) :=
  ⟨⟨rfl, (c6_extractor_degrades).2.1 (Hast.elem "table" [Hast.elem "tbody" []]) rfl⟩,
   ⟨by decide, (c6_extractor_degrades).2.2.2.2 exTableNode exTableData (by decide)⟩⟩

/-! ## C9 -/

theorem notMem_joinSep (a sep : Char) :
    ∀ parts : List (List Char), a ≠ sep → (∀ p ∈ parts, a ∉ p) → a ∉ joinSep sep parts
  | [], _, _ => by simp [joinSep]
  | [x], _, hp => by simpa [joinSep] using hp x (by simp)
  | x :: y :: rest, hne, hp => by
    have hrec := notMem_joinSep a sep (y :: rest) hne
      (fun p hmem => hp p (List.mem_cons_of_mem _ hmem))
    have hx := hp x (by simp)
    simp [joinSep, List.mem_append, List.mem_cons, hx, hne, hrec]

theorem splitSep_sepFree (sep : Char) : ∀ l : List Char, sep ∉ l → splitSep sep l = [l]
  | [], _ => rfl
  | c :: cs, h => by
    have hc : c ≠ sep := by
      intro e
      exact h (e ▸ List.mem_cons_self c cs)
    have hrec := splitSep_sepFree sep cs (fun hm => h (List.mem_cons_of_mem _ hm))
    simp [splitSep, hc, hrec]

theorem splitSep_append (sep : Char) :
    ∀ (l rest : List Char), sep ∉ l → splitSep sep (l ++ sep :: rest) = l :: splitSep sep rest
  | [], rest, _ => by simp [splitSep]
  | c :: cs, rest, h => by
    have hc : c ≠ sep := by
      intro e
      exact h (e ▸ List.mem_cons_self c cs)
    have hrec := splitSep_append sep cs rest (fun hm => h (List.mem_cons_of_mem _ hm))
    simp [splitSep, hc, hrec]

/-- Splitting inverts joining for a nonempty list of separator-free parts. -/
theorem splitSep_joinSep (sep : Char) :
    ∀ parts : List (List Char), parts ≠ [] → (∀ p ∈ parts, sep ∉ p) →
      splitSep sep (joinSep sep parts) = parts
  | [], h, _ => absurd rfl h
  | [x], _, hp => by simpa [joinSep] using splitSep_sepFree sep x (hp x (by simp))
  | x :: y :: rest, _, hp => by
    have hrec := splitSep_joinSep sep (y :: rest) (by simp)
      (fun p hm => hp p (List.mem_cons_of_mem _ hm))
    have hx := hp x (by simp)
    simp [joinSep, splitSep_append sep x (joinSep sep (y :: rest)) hx, hrec]

theorem map_mk_data : ∀ hs : List String, (hs.map (fun h => h.data)).map String.mk = hs
  | [] => rfl
  | h :: t => by simp [map_mk_data t]

/-- C9 counterexample: the source quotes but never escapes values, so a cell
value containing a newline breaks the line structure — re-splitting the CSV
by line yields three lines for a one-row dataset, so the row count is not
recovered: the round-trip claim fails as stated. -/
theorem c9_counterexample :
    (splitSep '\n' (csvContent ceCsvHeaders ceCsvData).data).length ≠ 1 + ceCsvData.length ∧
    csvContent ceCsvHeaders ceCsvData = "a\n\"x\ny\"" := by
  refine ⟨by decide, rfl⟩

/-- C9 (amended): for every dataset with at least one header whose header
names contain no comma and no newline and whose rendered cell values contain
no newline, the CSV serialization lists the headers in declared order
followed by one line per data row with every value individually quoted, and
re-splitting by line and comma recovers the identical headers and the
identical row count.  (A zero-column dataset serializes its header row as an
empty line, which re-splits to [""] rather than [], so the nonempty-header
condition is needed.) -/
theorem c9_csv_roundtrip (headers : List String) (data : List Row)
    (hne : headers ≠ [])
    (hh : ∀ h ∈ headers, ',' ∉ h.data ∧ '\n' ∉ h.data)
    (hv : ∀ row ∈ data, ∀ h ∈ headers, '\n' ∉ (jsDisplay (getVal row h)).data) :
    (splitSep '\n' (csvContent headers data).data).length = 1 + data.length ∧
    (splitSep ',' ((splitSep '\n' (csvContent headers data).data).headD [])).map String.mk =
      headers := by
  have hlines : ∀ p ∈ (joinSep ',' (headers.map (fun h => h.data)) ::
      data.map (fun row => joinSep ',' (headers.map (csvCell row)))), '\n' ∉ p := by
    intro p hp
    rcases List.mem_cons.mp hp with rfl | hp
    · exact notMem_joinSep '\n' ',' _ (by decide)
        (fun q hq => by
          obtain ⟨h, hmem, rfl⟩ := List.mem_map.mp hq
          exact (hh h hmem).2)
    · obtain ⟨row, hrow, rfl⟩ := List.mem_map.mp hp
      refine notMem_joinSep '\n' ',' _ (by decide) ?_
      intro q hq
      obtain ⟨h, hmem, rfl⟩ := List.mem_map.mp hq
      intro hcontra
      rcases List.mem_cons.mp hcontra with h1 | h1
      · exact absurd h1 (by decide)
      · rcases List.mem_append.mp h1 with h2 | h2
        · exact hv row hrow h hmem h2
        · simp at h2
  have key : splitSep '\n' (csvContent headers data).data =
      joinSep ',' (headers.map (fun h => h.data)) ::
        data.map (fun row => joinSep ',' (headers.map (csvCell row))) :=
    splitSep_joinSep '\n' _ (by simp) hlines
  refine ⟨?_, ?_⟩
  · rw [key]
    simp [Nat.add_comm]
  · rw [key]
    have hsplit : splitSep ',' (joinSep ',' (headers.map (fun h => h.data))) =
        headers.map (fun h => h.data) :=
      splitSep_joinSep ',' _ (by simpa using hne)
        (fun q hq => by
          obtain ⟨h, hmem, rfl⟩ := List.mem_map.mp hq
          exact (hh h hmem).1)
    simpa [hsplit] using map_mk_data headers

/-- C9 witness: the amended round-trip on the Widget dataset. -/
theorem c9_witness :
    ((["name", "amount"] : List String) ≠ [] ∧
      (∀ h ∈ (["name", "amount"] : List String), ',' ∉ h.data ∧ '\n' ∉ h.data) ∧
      (∀ row ∈ exTableData.data, ∀ h ∈ (["name", "amount"] : List String),
        '\n' ∉ (jsDisplay (getVal row h)).data)) ∧
    ((splitSep '\n' (csvContent ["name", "amount"] exTableData.data).data).length =
        1 + exTableData.data.length ∧
      (splitSep ','
        ((splitSep '\n' (csvContent ["name", "amount"] exTableData.data).data).headD [])).map
          String.mk = ["name", "amount"]) :=
  ⟨⟨by decide, by decide, by decide⟩,
   c9_csv_roundtrip ["name", "amount"] exTableData.data (by decide) (by decide) (by decide)⟩

/-! ## C1 -/

/-- Soundness of the first-occurrence search: a successful split decomposes
the input around the pattern. -/
theorem splitFirst_eq (pat : List Char) :
    ∀ l b a, splitFirst pat l = some (b, a) → l = b ++ pat ++ a
  | [], b, a, h => by
    by_cases hp : pat.isPrefixOf ([] : List Char)
    · simp only [splitFirst, if_pos hp, Option.some.injEq, Prod.mk.injEq] at h
      have hnil : pat = [] := List.prefix_nil.mp (List.isPrefixOf_iff_prefix.mp hp)
      obtain ⟨rfl, rfl⟩ := h
      simp [hnil]
    · simp [splitFirst, hp] at h
  | c :: cs, b, a, h => by
    by_cases hp : pat.isPrefixOf (c :: cs)
    · simp only [splitFirst, if_pos hp, Option.some.injEq, Prod.mk.injEq] at h
      obtain ⟨rfl, rfl⟩ := h
      have ht := List.prefix_iff_eq_take.mp (List.isPrefixOf_iff_prefix.mp hp)
      conv_lhs => rw [← List.take_append_drop pat.length (c :: cs)]
      rw [← ht]
      simp
    · simp only [splitFirst, if_neg hp] at h
      cases hrec : splitFirst pat cs with
      | none => rw [hrec] at h; simp at h
      | some p =>
        obtain ⟨b1, a1⟩ := p
        rw [hrec] at h
        simp only [Option.map_some', Option.some.injEq, Prod.mk.injEq] at h
        obtain ⟨rfl, rfl⟩ := h
        have ih := splitFirst_eq pat cs b1 a1 hrec
        rw [ih]
        simp

/-- Minimality of the first-occurrence search: no decomposition puts the
pattern earlier. -/
theorem splitFirst_min (pat : List Char) :
    ∀ l b a, splitFirst pat l = some (b, a) →
      ∀ b2 a2, l = b2 ++ pat ++ a2 → b.length ≤ b2.length
  | [], b, a, h, b2, a2, _ => by
    by_cases hp : pat.isPrefixOf ([] : List Char)
    · simp only [splitFirst, if_pos hp, Option.some.injEq, Prod.mk.injEq] at h
      obtain ⟨rfl, rfl⟩ := h
      exact Nat.zero_le _
    · simp [splitFirst, hp] at h
  | c :: cs, b, a, h, b2, a2, he => by
    by_cases hp : pat.isPrefixOf (c :: cs)
    · simp only [splitFirst, if_pos hp, Option.some.injEq, Prod.mk.injEq] at h
      obtain ⟨rfl, rfl⟩ := h
      exact Nat.zero_le _
    · simp only [splitFirst, if_neg hp] at h
      cases hrec : splitFirst pat cs with
      | none => rw [hrec] at h; simp at h
      | some p =>
        obtain ⟨b1, a1⟩ := p
        rw [hrec] at h
        simp only [Option.map_some', Option.some.injEq, Prod.mk.injEq] at h
        obtain ⟨rfl, rfl⟩ := h
        cases b2 with
        | nil =>
          exfalso
          apply hp
          rw [List.isPrefixOf_iff_prefix]
          exact ⟨a2, by simpa using he.symm⟩
        | cons c2 b2t =>
          rw [List.cons_append, List.cons_append] at he
          injection he with hc hcs
          have ih := splitFirst_min pat cs b1 a1 hrec b2t a2 hcs
          simpa using Nat.succ_le_succ ih

/-- Each run of the effect either leaves the state unchanged and runs
nothing, or fires: the one-shot flag is still clear, the message is an
assistant message, the first lower-case sql fence is matched, its trimmed
text passes the SELECT/WITH gate, and the flag is set. -/
theorem autoRunEffect_cases (ctx : Option DbContext) (msg : Message) (st : AutoRunState) :
    autoRunEffect ctx msg st = (st, none) ∨
    (st.hasAutoRun = false ∧ msg.role = .assistant ∧
      ∃ cap, firstSqlBlock msg.content = some cap ∧
        autoRunEffect ctx msg st = (⟨true⟩, some (trimStr (String.mk cap))) ∧
        (startsWithStr (upperStr (trimStr (String.mk cap))) "SELECT" ||
          startsWithStr (upperStr (trimStr (String.mk cap))) "WITH") = true) := by
  unfold autoRunEffect
  split
  · exact Or.inl rfl
  · split
    · exact Or.inl rfl
    · split
      · exact Or.inl rfl
      · rename_i h1 h2 h3
        split
        · exact Or.inl rfl
        · rename_i cap heq
          split
          · rename_i h4
            exact Or.inr ⟨by simpa using h2, not_ne_iff.mp h3, cap, heq, rfl, h4⟩
          · exact Or.inl rfl

/-- Once the one-shot flag is set, a render does nothing. -/
theorem autoRunEffect_spent (ctx : Option DbContext) (msg : Message) :
    autoRunEffect ctx msg ⟨true⟩ = (⟨true⟩, none) := by
  unfold autoRunEffect
  by_cases h1 : ctx.isNone
  · rw [if_pos h1]
  · rw [if_neg h1, if_pos (show (AutoRunState.mk true).hasAutoRun from rfl)]

theorem renderTimes_spent (ctx : Option DbContext) (msg : Message) :
    ∀ n, renderTimes ctx msg n ⟨true⟩ = (⟨true⟩, [])
  | 0 => rfl
  | n + 1 => by
    simp [renderTimes, autoRunEffect_spent, renderTimes_spent ctx msg n]

/-- Any number of renders of a fresh message instance runs nothing at all, or
runs exactly the trimmed first lower-case sql capture once. -/
theorem renderTimes_fresh (ctx : Option DbContext) (msg : Message) :
    ∀ n, (renderTimes ctx msg n ⟨false⟩).2 = [] ∨
      (msg.role = .assistant ∧
        ∃ cap, firstSqlBlock msg.content = some cap ∧
          (renderTimes ctx msg n ⟨false⟩).2 = [trimStr (String.mk cap)] ∧
          (startsWithStr (upperStr (trimStr (String.mk cap))) "SELECT" ||
            startsWithStr (upperStr (trimStr (String.mk cap))) "WITH") = true)
  | 0 => Or.inl rfl
  | n + 1 => by
    rcases autoRunEffect_cases ctx msg ⟨false⟩ with hid | ⟨-, hrole, cap, hfb, heq, helig⟩
    · rcases renderTimes_fresh ctx msg n with h | ⟨hrole, cap, hfb, hout, helig⟩
      · left
        simp [renderTimes, hid, h]
      · right
        exact ⟨hrole, cap, hfb, by simp [renderTimes, hid, hout], helig⟩
    · right
      exact ⟨hrole, cap, hfb, by simp [renderTimes, heq, renderTimes_spent], helig⟩

/-- C1 counterexample: a message with two sql-classified, eligible blocks —
the first tagged `mongodb`, the second `sql` — auto-runs the *second* block's
text, because the auto-run regex only matches the literal lower-case
` ```sql ` fence.  The claim, which requires the first sql-classified block's
text, fails at this input. -/
theorem c1_counterexample :
    (∀ b ∈ mongoFirstBlocks, classifyBlock b.languageTag = .sql ∧ eligible b.rawText = true) ∧
    mongoFirstBlocks.head?.map CodeBlock.rawText = some "SELECT 1" ∧
    (renderTimes (some demoCtx) mongoFirstMessage 1 ⟨false⟩).2 = ["SELECT 2"] ∧
    ("SELECT 2" : String) ≠ "SELECT 1" := by
  refine ⟨by decide, rfl, by decide, by decide⟩

/-- C1 (amended): automatic execution fires at most once per message
instance, and only for the first fence opened by the literal lower-case
` ```sql ` marker: whenever any number of renders of a fresh assistant
message instance hands a SQL text to the backend, the whole render history
hands over exactly that one text, the message's raw content decomposes around
the *earliest* ` ```sql\n ` opening with the *shortest* capture closed by
` \n``` `, and the text is that capture trimmed, passing the SELECT/WITH
gate.  Blocks tagged `mongodb` (or any other spelling), although
sql-classified, are never auto-run. -/
theorem c1_autorun_first_sql_fence (ctx : DbContext) (message : Message) (n : Nat)
    (sql : String)
    (hmem : sql ∈ (renderTimes (some ctx) message n ⟨false⟩).2) :
    (renderTimes (some ctx) message n ⟨false⟩).2 = [sql] ∧
    message.role = .assistant ∧
    ∃ pre cap post,
      message.content.data = pre ++ (sqlFenceOpen ++ (cap ++ (sqlFenceClose ++ post))) ∧
      (∀ pre2 suf2, message.content.data = pre2 ++ (sqlFenceOpen ++ suf2) →
        pre.length ≤ pre2.length) ∧
      (∀ cap2 post2, cap ++ (sqlFenceClose ++ post) = cap2 ++ (sqlFenceClose ++ post2) →
        cap.length ≤ cap2.length) ∧
      sql = trimStr (String.mk cap) ∧
      (startsWithStr (upperStr sql) "SELECT" || startsWithStr (upperStr sql) "WITH") = true := by
  rcases renderTimes_fresh (some ctx) message n with h | ⟨hrole, cap, hfb, hout, helig⟩
  · rw [h] at hmem
    simp at hmem
  · rw [hout] at hmem
    simp only [List.mem_singleton] at hmem
    subst hmem
    refine ⟨hout, hrole, ?_⟩
    unfold firstSqlBlock at hfb
    split at hfb
    · exact absurd hfb (by simp)
    · rename_i op h1
      split at hfb
      · exact absurd hfb (by simp)
      · rename_i cl h2
        have hcap := Option.some.inj hfb
        subst hcap
        have e1 := splitFirst_eq sqlFenceOpen message.content.data op.1 op.2 h1
        have m1 := splitFirst_min sqlFenceOpen message.content.data op.1 op.2 h1
        have e2 := splitFirst_eq sqlFenceClose op.2 cl.1 cl.2 h2
        have m2 := splitFirst_min sqlFenceClose op.2 cl.1 cl.2 h2
        refine ⟨op.1, cl.1, cl.2, ?_, ?_, ?_, rfl, helig⟩
        · rw [e2] at e1
          simpa [List.append_assoc] using e1
        · intro pre2 suf2 hin
          exact m1 pre2 suf2 (by simpa [List.append_assoc] using hin)
        · intro cap2 post2 hin
          refine m2 cap2 post2 ?_
          rw [e2]
          simpa [List.append_assoc] using hin

/-- C1 witness: two renders of an assistant message carrying one lower-case
sql fence execute its trimmed text exactly once, with the decomposition
instantiated. -/
theorem c1_witness :
    "select 3" ∈ (renderTimes (some demoCtx) autoRunDemoMessage 2 ⟨false⟩).2 ∧
    ((renderTimes (some demoCtx) autoRunDemoMessage 2 ⟨false⟩).2 = ["select 3"] ∧
      autoRunDemoMessage.role = .assistant ∧
      ∃ pre cap post,
        autoRunDemoMessage.content.data =
          pre ++ (sqlFenceOpen ++ (cap ++ (sqlFenceClose ++ post))) ∧
        (∀ pre2 suf2, autoRunDemoMessage.content.data = pre2 ++ (sqlFenceOpen ++ suf2) →
          pre.length ≤ pre2.length) ∧
        (∀ cap2 post2, cap ++ (sqlFenceClose ++ post) = cap2 ++ (sqlFenceClose ++ post2) →
          cap.length ≤ cap2.length) ∧
        ("select 3" : String) = trimStr (String.mk cap) ∧
        (startsWithStr (upperStr "select 3") "SELECT" ||
          startsWithStr (upperStr "select 3") "WITH") = true) :=
  ⟨by decide, c1_autorun_first_sql_fence demoCtx autoRunDemoMessage 2 "select 3" (by decide)⟩

end Analytics
